import Mathlib

/-!
Verification development for the Wiley HTML citation parser
(`wiley_html_parser.py`): a shallow embedding of the text-normalizer
functions, the reference classifier `parse_reference`, and the article
extractor `parse_wiley_html`, together with theorems about the
specified properties.

Strings are modelled as `String` (lists of characters); Python regular
expressions used by the source are transcribed as explicit scanning
functions with the same leftmost-match semantics.  The Python `re` module
operates on Unicode text; `\s` is modelled by `isPySpace` below, which
lists the whitespace code points Python recognises.
-/

namespace WileyParser

/-- Python `\s` / `str.isspace` : whitespace code points (ASCII whitespace,
the Unicode separator characters, NEL and the information separators). -/
def isPySpace (c : Char) : Bool :=
  let n := c.toNat
  n == 32 || n == 9 || n == 10 || n == 11 || n == 12 || n == 13 ||
  n == 28 || n == 29 || n == 30 || n == 31 || n == 133 || n == 160 ||
  n == 5760 || (8192 ≤ n && n ≤ 8202) || n == 8232 || n == 8233 ||
  n == 8239 || n == 8287 || n == 12288

/-- The punctuation class `[.,;:]` stripped from the ends by `clean_text`
(the regexes `[.,;:\s]+$` and `^[.,;:\s]+` of the code). -/
def isStripPunct (c : Char) : Bool :=
  c == '.' || c == ',' || c == ';' || c == ':'

/-- The character class `[.,;:\s]` of the edge-stripping regexes of `clean_text`. -/
def isPunctSpace (c : Char) : Bool := isStripPunct c || isPySpace c

/-- Helper for `collapseWs`: the Boolean records whether we are inside a
whitespace run whose single replacement space has already been emitted. -/
def collapseWsAux : Bool → List Char → List Char
  | _, [] => []
  | inRun, c :: cs =>
    if isPySpace c then
      if inRun then collapseWsAux true cs
      else ' ' :: collapseWsAux true cs
    else c :: collapseWsAux false cs

/-- Python `re.sub(r"\s+", " ", text)`: replace every maximal run of whitespace
characters by a single space. -/
def collapseWs (l : List Char) : List Char := collapseWsAux false l

/-- Python `str.strip()` on a character list: drop whitespace from both ends. -/
def pyStripList (l : List Char) : List Char :=
  (l.dropWhile isPySpace).rdropWhile isPySpace

/-- Python `str.strip()`. -/
def pyStrip (s : String) : String := ⟨pyStripList s.data⟩

/-- The function `clean_text` (source lines 50-60): `re.sub(r"\s+", " ", ...)` collapses
whitespace runs to single spaces, `re.sub(r"[.,;:\s]+$", "", ...)` strips the
punctuation/whitespace class from the right end, `re.sub(r"^[.,;:\s]+", "", ...)`
from the left end, then `.strip()`; the empty string maps to itself
(`if not text`). -/
def clean_text (s : String) : String :=
  if s = "" then ""
  else ⟨pyStripList (((collapseWs s.data).rdropWhile isPunctSpace).dropWhile
    isPunctSpace)⟩

/-- No two adjacent whitespace characters occur in the list. -/
def noWsRun : List Char → Bool
  | [] => true
  | [_] => true
  | a :: b :: t => (!(isPySpace a && isPySpace b)) && noWsRun (b :: t)

/-- Every whitespace character in the list is the plain space `" "`. -/
def wsOnlyBlank (l : List Char) : Bool :=
  l.all fun c => !isPySpace c || c == ' '

/-! The remaining text normalizers. -/

/-- The first maximal run of decimal digits in the text (`re.search(r"\d+", ...)`),
if any. -/
def firstDigitRun (l : List Char) : Option (List Char) :=
  match l.dropWhile (fun c => !c.isDigit) with
  | [] => none
  | c :: cs => some (c :: cs.takeWhile Char.isDigit)

/-- The function `clean_pages` (source lines 131-139): the first run of digits, or the
empty string when the text is falsy or has no digit. -/
def clean_pages (s : String) : String :=
  if s = "" then ""
  else
    match firstDigitRun s.data with
    | some r => ⟨r⟩
    | none => ""

/-- The function `clean_volume` (source lines 141-149).  The source searches with the
group-free pattern `\d+` and then calls `match.group(1)`; the Python `re` module
raises `IndexError: no such group` for that call, so any text containing a
digit makes the function raise.  The raise is modelled as `Except.error`. -/
def clean_volume (s : String) : Except String String :=
  if s = "" then .ok ""
  else
    match firstDigitRun s.data with
    | some _ => .error "no such group"
    | none => .ok ""

/-- Matches `re` pattern `(19|20)\d{2}` at the head of the list. -/
def yearAt : List Char → Option (List Char)
  | a :: b :: c :: d :: _ =>
    if ((a == '1' && b == '9') || (a == '2' && b == '0')) &&
        c.isDigit && d.isDigit then some [a, b, c, d]
    else none
  | _ => none

/-- Leftmost match of `(19|20)\d{2}` in the list. -/
def yearScan : List Char → Option (List Char)
  | [] => none
  | c :: cs =>
    match yearAt (c :: cs) with
    | some r => some r
    | none => yearScan cs

/-- The function `extract_year` (source lines 122-129): the first substring matching
`(19|20)\d{2}`, or the empty string. -/
def extract_year (s : String) : String :=
  if s = "" then ""
  else
    match yearScan s.data with
    | some r => ⟨r⟩
    | none => ""

/-- Truncation driver for the `re.sub(r"\s*<core>.*$", "", text)` family used
by `clean_authors`: cut the text at the leftmost position where `core`
matches, together with the run of whitespace immediately before it (matched
by the greedy `\s*`).  `acc` holds committed characters reversed; `pend`
holds the current uncommitted trailing whitespace run reversed.  The sources
apply these substitutions to `clean_text` output, which contains no newline,
so `.` and `$` have their simple meanings. -/
def truncCoreAux (core : List Char → Bool) :
    List Char → List Char → List Char → List Char
  | acc, pend, [] => acc.reverse ++ pend.reverse
  | acc, pend, c :: cs =>
    if core (c :: cs) then acc.reverse
    else if isPySpace c then truncCoreAux core acc (c :: pend) cs
    else truncCoreAux core (c :: (pend ++ acc)) [] cs

def truncCore (core : List Char → Bool) (l : List Char) : List Char :=
  truncCoreAux core [] [] l

/-- Core of `\s*\d{4}.*$`: four consecutive digits. -/
def fourDigitCore : List Char → Bool
  | a :: b :: c :: d :: _ => a.isDigit && b.isDigit && c.isDigit && d.isDigit
  | _ => false

/-- Core of `\s*<word>\s+.*$`: the literal word followed by at least one
whitespace character. -/
def wordWsCore (w : String) (l : List Char) : Bool :=
  w.data.isPrefixOf l &&
    match l.drop w.length with
    | c :: _ => isPySpace c
    | [] => false

/-- Core of `\s*based\s+on\s+.*$`. -/
def basedOnCore (l : List Char) : Bool :=
  "based".data.isPrefixOf l &&
    (let r := l.drop 5
     (match r with
      | c :: _ => isPySpace c
      | [] => false) &&
      (let r2 := r.dropWhile isPySpace
       "on".data.isPrefixOf r2 &&
        match r2.drop 2 with
        | c :: _ => isPySpace c
        | [] => false))

/-- The function `clean_authors` (source lines 97-120): `clean_text`, then truncation at a
4-digit year, at the words Journal/Proceedings/Conference followed by
whitespace, and at the connector words using/with/based on/for/in, in source
order, then `.strip()`. -/
def clean_authors (s : String) : String :=
  if s = "" then ""
  else
    let t0 := (clean_text s).data
    let t1 := truncCore fourDigitCore t0
    let t2 := truncCore (wordWsCore "Journal") t1
    let t3 := truncCore (wordWsCore "Proceedings") t2
    let t4 := truncCore (wordWsCore "Conference") t3
    let t5 := truncCore (wordWsCore "using") t4
    let t6 := truncCore (wordWsCore "with") t5
    let t7 := truncCore basedOnCore t6
    let t8 := truncCore (wordWsCore "for") t7
    let t9 := truncCore (wordWsCore "in") t8
    ⟨pyStripList t9⟩

/-- Python `str.strip(",")`: commas removed from both ends. -/
def pyStripCommas (l : List Char) : List Char :=
  (l.dropWhile (· == ',')).rdropWhile (· == ',')

/-! The reference data model. -/

/-- The enumeration `ReferenceType` (source lines 14-20). -/
inductive ReferenceType where
  | article
  | working_paper
  | book
deriving DecidableEq, Repr

/-- The record `Reference` (source lines 22-35). -/
structure Reference where
  authors : List String
  year : Option String
  title : Option String
  journal : Option String
  volume : Option String
  page_first : Option String
  page_last : Option String
  doi : Option String
  ref_type : ReferenceType := .article
  working_paper_institution : Option String := none
  book_title : Option String := none
  chapter_title : Option String := none
deriving DecidableEq, Repr

/-- Abstraction of the BeautifulSoup reference fragment consumed by
`parse_reference`, recording exactly the element queries the function makes.
Per the contract with the caller, the fragment has already had its non-DOI
links/buttons removed. -/
structure RefElem where
  /-- texts of the `class="author"` elements, in document order -/
  authorTexts : List String
  /-- text of the first `class="pubYear"` element, when present -/
  pubYearText : Option String
  /-- the text `ref_elem.get_text()` -/
  fullText : String
  /-- whether `ref_elem.find("i")` finds an element -/
  hasItalic : Bool
  /-- texts of all `i`/`em` elements, in document order -/
  italicTexts : List String
  /-- text of the first `class="articleTitle"` element -/
  articleTitleText : Option String
  /-- text of the first `class="bookTitle"` element -/
  bookTitleText : Option String
  /-- text of the first `class="chapterTitle"` element -/
  chapterTitleText : Option String
  /-- text of the first `class="otherTitle"` element -/
  otherTitleText : Option String
  /-- the `stripped_strings` of the `span.hidden.data-doi` inside the
  `div.extra-links getFTR` container, when both exist -/
  hiddenDoiTexts : Option (List String)
  /-- the `href` of the first `<a>` whose address matches `re.compile(r"doi.org")` -/
  doiHref : Option String
deriving DecidableEq, Repr

/-! Pattern matchers used by the reference classifier. -/

/-- Case-insensitive literal-prefix test (`re.IGNORECASE` over ASCII
pattern letters): `pat` is given lowercase. -/
def ciPrefixOf (pat : List Char) (l : List Char) : Bool :=
  pat.isPrefixOf ((l.take pat.length).map Char.toLower)

/-- Does the list start with a whitespace character? -/
def hasWsHead : List Char → Bool
  | c :: _ => isPySpace c
  | [] => false

/-- Scan every suffix, leftmost first, for a Boolean position matcher
(`re.search` semantics). -/
def scanBool (p : List Char → Bool) : List Char → Bool
  | [] => p []
  | c :: cs => p (c :: cs) || scanBool p cs

/-- Scan every suffix, leftmost first, for a position matcher returning a
payload (`re.search` semantics). -/
def scanOpt {α : Type} (p : List Char → Option α) : List Char → Option α
  | [] => p []
  | c :: cs =>
    match p (c :: cs) with
    | some r => some r
    | none => scanOpt p cs

/-- Matches `working\s+paper` (case-insensitive) at the head of the list. -/
def wpTokenAt (l : List Char) : Bool :=
  ciPrefixOf "working".data l &&
    (hasWsHead (l.drop 7) &&
      ciPrefixOf "paper".data ((l.drop 7).dropWhile isPySpace))

/-- The search `re.search(r"working\s+paper", full_text, re.IGNORECASE)` (line 208). -/
def containsWorkingPaper (s : String) : Bool :=
  scanBool wpTokenAt s.data

/-- The capture `([^.]+?)(?:\.|$)` after a greedy `\s*`, with the regex
backtracking of the engine: the greedy `\s*` first takes the whole whitespace run;
if the lazy capture cannot start there (end of text, or a dot), one
whitespace character is given back to the capture. The lazy capture extends
to just before the first dot, or to the end if there is none. -/
def instCapture (r : List Char) : Option (List Char) :=
  let ws := r.takeWhile isPySpace
  let rest := r.dropWhile isPySpace
  match rest with
  | [] =>
    match ws.getLast? with
    | some c => some [c]
    | none => none
  | '.' :: _ =>
    match ws.getLast? with
    | some c => some [c]
    | none => none
  | _ => some (rest.takeWhile (· != '.'))

/-- Matches `working\s+paper\s*,\s*([^.]+?)(?:\.|$)` (case-insensitive) at
the head of the list, returning the capture group. -/
def wpInstAt (l : List Char) : Option (List Char) :=
  if wpTokenAt l then
    let afterPaper := (((l.drop 7).dropWhile isPySpace).drop 5).dropWhile isPySpace
    match afterPaper with
    | ',' :: r => instCapture r
    | _ => none
  else none

/-- Institution extraction (line 222): leftmost match of
`working\s+paper\s*,\s*([^.]+?)(?:\.|$)`, group 1, `.strip()`-ed. -/
def wpInstitution (s : String) : Option String :=
  (scanOpt wpInstAt s.data).map (fun g => (⟨pyStripList g⟩ : String))

/-- NFA acceptance for the capture body `[^,]*?(?:\([^)]*\)[^,]*?)*` of the
working-paper title pattern: the two Booleans track whether the scan can be
outside, respectively inside, a `\([^)]*\)` parenthesized chunk. -/
def wpGroupOkAux : Bool → Bool → List Char → Bool
  | canOut, _, [] => canOut
  | canOut, canIn, c :: cs =>
    wpGroupOkAux ((canOut && c != ',') || (canIn && c == ')'))
      ((canOut && c == '(') || (canIn && c != ')')) cs

def wpGroupOk (l : List Char) : Bool := wpGroupOkAux true false l

/-- The trailing context `\s*,\s*Working\s+paper` (case-insensitive) of the
working-paper title pattern, matched at the head of the list. -/
def wpTitleTailAt (l : List Char) : Bool :=
  match l.dropWhile isPySpace with
  | ',' :: r2 => wpTokenAt (r2.dropWhile isPySpace)
  | _ => false

/-- Lazy-capture search: try captures shortest first (`pre` holds the
candidate reversed), accepting when the capture body is matchable and the
trailing context follows. -/
def wpTitleSplit : List Char → List Char → Option (List Char)
  | pre, [] =>
    if wpGroupOk pre.reverse && wpTitleTailAt [] then some pre.reverse else none
  | pre, c :: cs =>
    if wpGroupOk pre.reverse && wpTitleTailAt (c :: cs) then some pre.reverse
    else wpTitleSplit (c :: pre) cs

/-- Greedy `\s*` before the lazy capture: try giving the capture the text
after the whole whitespace run first, then backtrack one character at a
time. -/
def wpTitleTryWs : Nat → List Char → Option (List Char)
  | 0, r => wpTitleSplit [] r
  | t + 1, r =>
    match wpTitleSplit [] (r.drop (t + 1)) with
    | some g => some g
    | none => wpTitleTryWs t r

/-- Matches `,\s*([^,]*?(?:\([^)]*\)[^,]*?)*)(?:\s*,\s*Working\s+paper)`
(case-insensitive) at the head of the list, returning the capture group. -/
def wpTitleAt (l : List Char) : Option (List Char) :=
  match l with
  | ',' :: r => wpTitleTryWs (r.takeWhile isPySpace).length r
  | _ => none

/-- First index at which `needle` occurs in the remaining list (`str.find`
helper); the second argument is the index of the head of the list. -/
def findSubAux (needle : List Char) : List Char → Nat → Option Nat
  | [], i => if needle.isPrefixOf [] then some i else none
  | c :: cs, i =>
    if needle.isPrefixOf (c :: cs) then some i else findSubAux needle cs (i + 1)

/-- Python `str.find`: index of the first occurrence, `-1` when absent. -/
def pyFind (hay needle : List Char) : Int :=
  match findSubAux needle hay 0 with
  | some i => (i : Int)
  | none => -1

/-- Python substring containment (`sub in s`). -/
def pyContains (hay needle : List Char) : Bool :=
  (findSubAux needle hay 0).isSome

/-- Python slice `l[i:]` with negative indices counted from the end. -/
def pySliceFrom (l : List Char) (i : Int) : List Char :=
  if i < 0 then l.drop (max 0 ((l.length : Int) + i)).toNat
  else l.drop i.toNat

/-- Working-paper title extraction (lines 211-218): the text after the first
occurrence of the text of the `pubYear` element is searched for the title
pattern; the capture is `clean_text`-ed.  Only runs when a `pubYear` element
exists. -/
def wpTitle (yearText : Option String) (fullText : String) : Option String :=
  match yearText with
  | none => none
  | some y =>
    let after := pySliceFrom fullText.data
      (pyFind fullText.data y.data + (y.length : Int))
    (scanOpt wpTitleAt after).map (fun g => clean_text ⟨g⟩)

/-- Journal extraction (lines 234-240): `" ".join(clean_text(elem.get_text())
for elem in italic_elems if elem.get_text().strip())`, `None` when the join
is empty. -/
def joinItalics (texts : List String) : Option String :=
  let j := String.intercalate " "
    ((texts.filter (fun t => pyStrip t ≠ "")).map clean_text)
  if j = "" then none else some j

/-- One of the organizational words of the institution pattern at the head
of the list. -/
def orgWordAt (l : List Char) : Bool :=
  "University".data.isPrefixOf l || "Institute".data.isPrefixOf l ||
  "College".data.isPrefixOf l || "School".data.isPrefixOf l

/-- Matches `([^,]+(?:University|Institute|College|School)[^,]*)` at the head
of the list.  The greedy `[^,]+`/`[^,]*` make the whole match the maximal
comma-free run starting here, provided an organizational word occurs at
offset at least 1 inside it. -/
def orgInstAt (l : List Char) : Option (List Char) :=
  let run := l.takeWhile (· != ',')
  match run with
  | [] => none
  | _ :: rest => if scanBool orgWordAt rest then some run else none

/-- Institution search for the other-title branch (line 270), `.strip()`-ed. -/
def orgInstitution (s : String) : Option String :=
  (scanOpt orgInstAt s.data).map (fun g => (⟨pyStripList g⟩ : String))

/-- Matches `(?:Vol\.|Volume)\s*(\d+)` at the head of the list, returning the
digit capture and the text after the match (`vol_match.end()`). -/
def volPat1At (l : List Char) : Option (List Char × List Char) :=
  if "Vol.".data.isPrefixOf l then digitsAfterWs (l.drop 4)
  else if "Volume".data.isPrefixOf l then digitsAfterWs (l.drop 6)
  else none
where
  digitsAfterWs (r : List Char) : Option (List Char × List Char) :=
    let r2 := r.dropWhile isPySpace
    match r2.takeWhile Char.isDigit with
    | [] => none
    | d :: ds => some (d :: ds, r2.drop (d :: ds).length)

/-- Matches `(\d+)\s*[,.]` at the head of the list, returning the digit
capture and the text after the match. -/
def volPat2At (l : List Char) : Option (List Char × List Char) :=
  match l.takeWhile Char.isDigit with
  | [] => none
  | d :: ds =>
    match (l.drop (d :: ds).length).dropWhile isPySpace with
    | ',' :: rest => some (d :: ds, rest)
    | '.' :: rest => some (d :: ds, rest)
    | _ => none

/-- Matches `(\d+)\s*[-–]\s*(\d+)` at the head of the list, returning the two
digit captures.  The optional prefix `(?:pp?\.\s*)?` of the first page
pattern (line 302) cannot change the captured digit runs — a prefixed match
embeds a bare match whose digits are the same, and no bare match can start
inside the prefix — so the single bare pattern models both page regexes. -/
def pagePairAt (l : List Char) : Option (List Char × List Char) :=
  match l.takeWhile Char.isDigit with
  | [] => none
  | d :: ds =>
    match ((l.drop (d :: ds).length).dropWhile isPySpace) with
    | h :: r3 =>
      if h == '-' || h == '–' then
        match (r3.dropWhile isPySpace).takeWhile Char.isDigit with
        | [] => none
        | e :: es => some (d :: ds, e :: es)
      else none
    | [] => none

/-- Page extraction from the text after the volume (lines 300-311). -/
def pagesOf (l : List Char) : Option String × Option String :=
  match scanOpt pagePairAt l with
  | some (a, b) => (some ⟨a⟩, some ⟨b⟩)
  | none => (none, none)

/-- Volume/page extraction for journal articles (lines 279-311): find the
journal substring in the full text, `.strip()` what follows it, try the
`Vol./Volume` pattern then the bare `N,`/`N.` pattern for the volume, and
scan the remainder for a page pair. -/
def volAndPages (fullText : String) (j : String) :
    Option String × Option String × Option String :=
  match findSubAux j.data fullText.data 0 with
  | none => (none, none, none)
  | some idx =>
    let after := pyStripList (fullText.data.drop (idx + j.data.length))
    match scanOpt volPat1At after with
    | some (v, rest) => (some ⟨v⟩, pagesOf rest)
    | none =>
      match scanOpt volPat2At after with
      | some (v, rest) => (some ⟨v⟩, pagesOf rest)
      | none => (none, pagesOf after)

/-- DOI extraction (lines 316-336): first stripped string of the hidden `data-doi` span that starts with `10.`; otherwise the address of the first `doi.org`
hyperlink, with the `https://doi.org/` prefix stripped when
present. -/
def doiOf (e : RefElem) : Option String :=
  match
    (match e.hiddenDoiTexts with
     | some texts => texts.find? (fun t => "10.".data.isPrefixOf t.data)
     | none => none)
  with
  | some t => some t
  | none =>
    match e.doiHref with
    | some h =>
      if "https://doi.org/".data.isPrefixOf h.data then
        some ⟨h.data.drop 16⟩
      else some h
    | none => none

/-- Author extraction (lines 188-197): the text of each author element is
`clean_authors`-ed, kept only when longer than 2 characters, `strip(",")`-ed,
and dropped when that leaves nothing. -/
def refAuthors (texts : List String) : List String :=
  texts.foldl
    (fun acc t =>
      let a := clean_authors t
      if a.length > 2 then
        if (⟨pyStripCommas a.data⟩ : String) ≠ "" then
          acc ++ [(⟨pyStripCommas a.data⟩ : String)]
        else acc
      else acc)
    []

/-- Python `str.lower()` (ASCII case mapping, which covers the inputs of the source). -/
def pyLower (s : String) : String := ⟨s.data.map Char.toLower⟩

/-- The classification chain, first matching rule (lines 207-248):
working-paper token, else italic element, else book. -/
def refType1 (e : RefElem) : ReferenceType :=
  if containsWorkingPaper e.fullText then .working_paper
  else if e.hasItalic then .article
  else .book

/-- The title assigned by the classification chain. -/
def title1 (e : RefElem) : Option String :=
  if containsWorkingPaper e.fullText then wpTitle e.pubYearText e.fullText
  else if e.hasItalic then e.articleTitleText.map clean_text
  else e.bookTitleText.map clean_text

/-- The institution assigned by the classification chain. -/
def inst1 (e : RefElem) : Option String :=
  if containsWorkingPaper e.fullText then wpInstitution e.fullText else none

/-- The field `ref.journal`: assigned only in the italic (article) branch. -/
def journalOf (e : RefElem) : Option String :=
  if !containsWorkingPaper e.fullText && e.hasItalic then
    joinItalics e.italicTexts
  else none

/-- Whether a dedicated chapter-title or book-title element exists
(line 256). -/
def hasCBTitle (e : RefElem) : Bool :=
  e.chapterTitleText.isSome || e.bookTitleText.isSome

/-- The dedicated-title second pass (lines 250-272), returning the final
(title, ref_type, working_paper_institution) triple: an `otherTitle` element
(with no chapter/book title) overwrites the title and, when its cleaned text
contains "working paper" or "discussion paper", force-reclassifies to
WORKING_PAPER and searches it for an organizational institution. -/
def secondPass (e : RefElem) : Option String × ReferenceType × Option String :=
  if hasCBTitle e then (title1 e, refType1 e, inst1 e)
  else
    match e.otherTitleText with
    | none => (title1 e, refType1 e, inst1 e)
    | some t =>
      if pyContains (pyLower (clean_text t)).data "working paper".data ||
          pyContains (pyLower (clean_text t)).data "discussion paper".data then
        (some (clean_text t), .working_paper,
          match orgInstitution (clean_text t) with
          | some i => some i
          | none => inst1 e)
      else (some (clean_text t), refType1 e, inst1 e)

/-- The function `parse_reference` (source lines 172-345).  The one exception that can
occur inside the `try` is the `TypeError` from `full_text.find(ref.journal)`
when `ref.journal` is `None` (line 280, reached only for ARTICLE-typed
references); the handler at line 343 returns the partially filled record, so
volume, pages and DOI remain unassigned on that path. -/
def parse_reference (e : RefElem) : Reference :=
  match secondPass e with
  | (title, rt, inst) =>
    let base : Reference := {
      authors := refAuthors e.authorTexts
      year := e.pubYearText.map extract_year
      title := title
      journal := journalOf e
      volume := none
      page_first := none
      page_last := none
      doi := none
      ref_type := rt
      working_paper_institution := inst
      book_title :=
        if hasCBTitle e then e.bookTitleText.map clean_text else none
      chapter_title :=
        if hasCBTitle e then e.chapterTitleText.map clean_text else none }
    if rt = .article then
      match journalOf e with
      | none => base
      | some j =>
        match volAndPages e.fullText j with
        | (v, pf, pl) =>
          { base with
              volume := v, page_first := pf, page_last := pl, doi := doiOf e }
    else { base with doi := doiOf e }

/-! The article metadata extractor. -/

/-- A calendar date as produced by `datetime.strptime(...).date()`. -/
structure PyDate where
  year : Nat
  month : Nat
  day : Nat
deriving DecidableEq, Repr

/-- The record `ArticleMetadata` (source lines 37-48). -/
structure ArticleMetadata where
  title : Option String
  authors : List String
  published_date : Option PyDate
  volume : Option String
  issue : Option String
  page_first : Option String
  page_last : Option String
  citations : Option Nat
  doi : Option String
  references : List Reference
deriving DecidableEq, Repr

/-- Abstraction of one author element (`a.author-name` or `div.author-info`):
the fields correspond to `find("span")`, `get("title")` and `.text`
(lines 374-382). -/
structure AuthorElem where
  spanText : Option String
  titleAttr : Option String
  text : String
deriving DecidableEq, Repr

/-- Abstraction of the parsed article document, recording the element
queries `parse_wiley_html` makes.  Reference list items are taken after the
removal of non-DOI links/buttons by the caller (lines 450-453). -/
structure Doc where
  /-- text of `h1.citation__title`, when present -/
  titleText : Option String
  /-- the `a.author-name` elements -/
  authorNameElems : List AuthorElem
  /-- the fallback `div.author-info` elements -/
  authorInfoElems : List AuthorElem
  /-- text of `a.volume-issue`, when present -/
  volumeIssueText : Option String
  /-- text of `span.citation__page-range`, when present -/
  pageRangeText : Option String
  /-- text of `span.epub-date`, when present -/
  epubDateText : Option String
  /-- text of the `a[href="#citedby-section"]` element, when present -/
  citedByText : Option String
  /-- presence of `a.epub-doi` and, inside, its `href` attribute -/
  epubDoiHref : Option (Option String)
  /-- the `li` items of `ul.rlist.separator`, when the list is present -/
  refItems : Option (List RefElem)
deriving DecidableEq, Repr

/-- The author name chosen for one element (lines 375-382): the text of a nested span if one exists, else a non-empty `title` attribute, else the
own text of the element. -/
def extractName (a : AuthorElem) : String :=
  match a.spanText with
  | some s => s
  | none =>
    match a.titleAttr with
    | some t => if t = "" then a.text else t
    | none => a.text

/-- The author-element list actually iterated (lines 370-372): the
`a.author-name` elements, else the fallback `div.author-info` elements. -/
def usedAuthorElems (d : Doc) : List AuthorElem :=
  if d.authorNameElems ≠ [] then d.authorNameElems else d.authorInfoElems

/-- The author loop (lines 366-388): skip falsy raw names, `clean_text` the
rest, and append first occurrences only. -/
def authorsOf (elems : List AuthorElem) : List String :=
  elems.foldl
    (fun acc a =>
      if extractName a ≠ "" then
        if clean_text (extractName a) ∈ acc then acc
        else acc ++ [clean_text (extractName a)]
      else acc)
    []

/-- The match `re.match(r"Volume\s+(\d+),\s*Issue\s+(\d+)", ...)` (line 397), anchored
at the start. -/
def volIssueMatch (s : String) : Option String × Option String :=
  if "Volume".data.isPrefixOf s.data ∧ hasWsHead (s.data.drop 6) then
    let r2 := (s.data.drop 6).dropWhile isPySpace
    match r2.takeWhile Char.isDigit with
    | [] => (none, none)
    | d :: ds =>
      match r2.drop (d :: ds).length with
      | ',' :: r3 =>
        let r4 := r3.dropWhile isPySpace
        if "Issue".data.isPrefixOf r4 ∧ hasWsHead (r4.drop 5) then
          match ((r4.drop 5).dropWhile isPySpace).takeWhile Char.isDigit with
          | [] => (none, none)
          | i :: is2 => (some ⟨d :: ds⟩, some ⟨i :: is2⟩)
        else (none, none)
      | _ => (none, none)
  else (none, none)

/-- Matches `p\.\s*(\d+)-(\d+)` at the head of the list. -/
def pageRangeAt (l : List Char) : Option (List Char × List Char) :=
  match l with
  | 'p' :: '.' :: r =>
    let r2 := r.dropWhile isPySpace
    match r2.takeWhile Char.isDigit with
    | [] => none
    | d :: ds =>
      match r2.drop (d :: ds).length with
      | '-' :: r3 =>
        match r3.takeWhile Char.isDigit with
        | [] => none
        | e :: es => some (d :: ds, e :: es)
      | _ => none
  | _ => none

/-- The search `re.search(r"p\.\s*(\d+)-(\d+)", ...)` (line 409). -/
def pageRangeMatch (s : String) : Option String × Option String :=
  match scanOpt pageRangeAt s.data with
  | some (a, b) => (some ⟨a⟩, some ⟨b⟩)
  | none => (none, none)

/-- Numeric value of a digit run. -/
def digitsToNat (l : List Char) : Nat :=
  l.foldl (fun n c => n * 10 + (c.toNat - 48)) 0

/-- Citation count (lines 429-435): first integer substring of the cited-by
text of the link. -/
def citationsOf (t : String) : Option Nat :=
  (firstDigitRun t.data).map digitsToNat

/-- Day-of-month candidates of the `strptime` pattern `%d`, namely
`(3[01]|[12]\d|0[1-9]|[1-9])`, in alternation order, each with the remaining
text. -/
def dayCandidates : List Char → List (Nat × List Char)
  | l =>
    (match l with
     | '3' :: c :: r =>
       if c == '0' || c == '1' then [(30 + (c.toNat - 48), r)] else []
     | _ => []) ++
    (match l with
     | a :: c :: r =>
       if (a == '1' || a == '2') && c.isDigit then
         [((a.toNat - 48) * 10 + (c.toNat - 48), r)]
       else []
     | _ => []) ++
    (match l with
     | '0' :: c :: r =>
       if c.isDigit && c != '0' then [(c.toNat - 48, r)] else []
     | _ => []) ++
    (match l with
     | a :: r => if a.isDigit && a != '0' then [(a.toNat - 48, r)] else []
     | _ => [])

/-- English month names for the `strptime` directive `%B` (matched case-insensitively;
no name is a prefix of another). -/
def monthNames : List (Nat × String) :=
  [(1, "january"), (2, "february"), (3, "march"), (4, "april"), (5, "may"),
   (6, "june"), (7, "july"), (8, "august"), (9, "september"),
   (10, "october"), (11, "november"), (12, "december")]

def monthAt (l : List Char) : Option (Nat × List Char) :=
  (monthNames.find? (fun m => ciPrefixOf m.2.data l)).map
    (fun m => (m.1, l.drop m.2.data.length))

def daysInMonth (y m : Nat) : Nat :=
  if m = 2 then
    if y % 4 = 0 ∧ (y % 100 ≠ 0 ∨ y % 400 = 0) then 29 else 28
  else if m = 4 ∨ m = 6 ∨ m = 9 ∨ m = 11 then 30
  else 31

/-- The call `datetime.strptime(s, "%d %B %Y").date()`: day pattern, whitespace,
full month name, whitespace, 4-digit year, end of string; the `datetime`
constructor then validates the day against the month (and rejects year 0),
raising `ValueError` — modelled as `none` — otherwise. -/
def parseDMY (l : List Char) : Option PyDate :=
  (dayCandidates l).foldl
    (fun acc dc =>
      match acc with
      | some d => some d
      | none =>
        match dc with
        | (d, r1) =>
          if hasWsHead r1 then
            match monthAt (r1.dropWhile isPySpace) with
            | some (m, r3) =>
              if hasWsHead r3 then
                let r4 := r3.dropWhile isPySpace
                match r4.takeWhile Char.isDigit with
                | [a, b, c, e] =>
                  if r4.drop 4 = [] then
                    let y := digitsToNat [a, b, c, e]
                    if 1 ≤ y ∧ 1 ≤ d ∧ d ≤ daysInMonth y m then
                      some ⟨y, m, d⟩
                    else none
                  else none
                | _ => none
              else none
            | none => none
          else none)
    none

/-- The slice `date_text.split("First published:")[1]`: the segment between the first
and second occurrence of the separator (to the end when the separator occurs
once). -/
def splitSecondField (sep l : List Char) : List Char :=
  match findSubAux sep l 0 with
  | none => l
  | some i =>
    let rest := l.drop (i + sep.length)
    match findSubAux sep rest 0 with
    | none => rest
    | some j => rest.take j

/-- Publication date extraction (lines 415-426). -/
def epubDateOf (t : String) : Option PyDate :=
  let dt := pyStripList t.data
  if pyContains dt "First published:".data then
    parseDMY (pyStripList (splitSecondField "First published:".data dt))
  else parseDMY dt

/-- Article DOI (lines 438-443): the `href` of the `a.epub-doi` element, kept only
when it starts with the resolver prefix. -/
def articleDoiOf : Option (Option String) → Option String
  | some (some h) =>
    if "https://doi.org/".data.isPrefixOf h.data then some ⟨h.data.drop 16⟩
    else none
  | _ => none

/-- The all-absent record returned by the document-level exception handler
(lines 472-485). -/
def emptyMetadata : ArticleMetadata :=
  { title := none, authors := [], published_date := none, volume := none,
    issue := none, page_first := none, page_last := none, citations := none,
    doi := none, references := [] }

/-- The function `parse_wiley_html` (source lines 347-485).  The input `none` models a
document-level failure — the file cannot be opened/decoded, or an unexpected
exception escapes extraction — handled by the `except` at line 472.  All
per-field parsing inside the `try` either succeeds or leaves the field
absent, so every `some` document flows through the main path. -/
def parse_wiley_html (input : Option Doc) : ArticleMetadata :=
  match input with
  | none => emptyMetadata
  | some d =>
    { title := d.titleText.map pyStrip
      authors := authorsOf (usedAuthorElems d)
      published_date :=
        match d.epubDateText with
        | some t => epubDateOf t
        | none => none
      volume :=
        (match d.volumeIssueText with
         | some t => volIssueMatch t
         | none => (none, none)).1
      issue :=
        (match d.volumeIssueText with
         | some t => volIssueMatch t
         | none => (none, none)).2
      page_first :=
        (match d.pageRangeText with
         | some t => pageRangeMatch t
         | none => (none, none)).1
      page_last :=
        (match d.pageRangeText with
         | some t => pageRangeMatch t
         | none => (none, none)).2
      citations :=
        match d.citedByText with
        | some t => citationsOf t
        | none => none
      doi := articleDoiOf d.epubDoiHref
      references :=
        match d.refItems with
        | some items =>
          (items.map parse_reference).filter (fun r => r.authors ≠ [])
        | none => [] }

/-! Definitions supporting individual claims. -/

/-- Modelled from the spec: the canonical DOI shape, "`10.` followed by 4+
digits, `/`, and a non-whitespace suffix".  The source code contains no such
validator; this definition follows the words of the spec, for comparison with
what `parse_reference` actually does. -/
def isCanonicalDoi (s : String) : Bool :=
  "10.".data.isPrefixOf s.data &&
    (decide (((s.data.drop 3).takeWhile Char.isDigit).length ≥ 4) &&
      match (s.data.drop 3).dropWhile Char.isDigit with
      | '/' :: suf => !suf.isEmpty && suf.all (fun c => !isPySpace c)
      | _ => false)

/-- The cleaned author names offered to the de-duplicating loop, in document
order: raw names of the used elements, falsy ones skipped, `clean_text`-ed. -/
def cleanedNames (d : Doc) : List String :=
  (((usedAuthorElems d).map extractName).filter (fun n => n ≠ "")).map
    clean_text

/-- One step of the first-seen de-duplicating accumulation performed by the
author loop. -/
def dedupStep (acc : List String) (n : String) : List String :=
  if n ∈ acc then acc else acc ++ [n]

/-- Fragment with both an italic venue element and the literal text
"Working Paper, MIT" (classification-priority scenario). -/
def exC1 : RefElem :=
  { authorTexts := ["Smith, John"], pubYearText := some "2020",
    fullText := "Smith, John, 2020, Asset pricing, Working Paper, MIT.",
    hasItalic := true, italicTexts := ["Econometrica"],
    articleTitleText := none, bookTitleText := none, chapterTitleText := none,
    otherTitleText := none, hiddenDoiTexts := none, doiHref := none }

/-- Book-shaped fragment whose hidden DOI span holds the malformed candidate
`10.12/x`. -/
def exC2short : RefElem :=
  { authorTexts := [], pubYearText := none,
    fullText := "Smith (2005) The theory.",
    hasItalic := false, italicTexts := [],
    articleTitleText := none, bookTitleText := none, chapterTitleText := none,
    otherTitleText := none, hiddenDoiTexts := some ["10.12/x"],
    doiHref := none }

/-- Fragment whose hidden DOI span holds the well-formed `10.1111/jofi.12737`. -/
def exC2good : RefElem :=
  { exC2short with hiddenDoiTexts := some ["10.1111/jofi.12737"] }

/-- Fragment whose hidden DOI span holds `not-a-doi` and which has no
`doi.org` link. -/
def exC2bad : RefElem :=
  { exC2short with hiddenDoiTexts := some ["not-a-doi"] }

/-- Fragment with no hidden DOI span and a `doi.org` link to `not-a-doi`. -/
def exC2href : RefElem :=
  { exC2short with
    hiddenDoiTexts := none
    doiHref := some "https://doi.org/not-a-doi" }

/-- Fragment whose hidden DOI candidate contains internal whitespace. -/
def exC2ws : RefElem :=
  { exC2short with hiddenDoiTexts := some ["10.1111/jo fi.1"] }

/-- Book-shaped fragment with one extractable author (for the C3 scenario). -/
def exC3 : RefElem :=
  { authorTexts := ["Brown, Bob"], pubYearText := some "1999",
    fullText := "Brown, Bob, 1999, A treatise. Publisher.",
    hasItalic := false, italicTexts := [],
    articleTitleText := none, bookTitleText := none, chapterTitleText := none,
    otherTitleText := none, hiddenDoiTexts := none, doiHref := none }

/-- Document whose reference list holds the single item `exC3`. -/
def exC3doc : Doc :=
  { titleText := some "Example Paper", authorNameElems := [],
    authorInfoElems := [], volumeIssueText := none, pageRangeText := none,
    epubDateText := none, citedByText := none, epubDoiHref := none,
    refItems := some [exC3] }

/-- Article-typed fragment whose italic journal field reads
"Journal of Finance, forthcoming" (the forthcoming scenario of the spec). -/
def exC5 : RefElem :=
  { authorTexts := ["Smith, Ann"], pubYearText := some "2019",
    fullText := "Smith, Ann, 2019, Risk, Journal of Finance, forthcoming.",
    hasItalic := true, italicTexts := ["Journal of Finance, forthcoming"],
    articleTitleText := none, bookTitleText := none, chapterTitleText := none,
    otherTitleText := none, hiddenDoiTexts := none, doiHref := none }

/-- Document with a single author element whose raw text "." is truthy but
cleans to the empty string. -/
def exC6dot : Doc :=
  { titleText := none,
    authorNameElems := [{ spanText := none, titleAttr := none, text := "." }],
    authorInfoElems := [], volumeIssueText := none, pageRangeText := none,
    epubDateText := none, citedByText := none, epubDoiHref := none,
    refItems := none }

/-- Document with two author elements cleaning to the same value and a third
distinct one (de-duplication scenario). -/
def exC6dup : Doc :=
  { titleText := none,
    authorNameElems :=
      [{ spanText := some "Jane  Doe", titleAttr := none, text := "" },
       { spanText := none, titleAttr := none, text := "Bob Smith" },
       { spanText := none, titleAttr := some "Jane Doe", text := "" }],
    authorInfoElems := [], volumeIssueText := none, pageRangeText := none,
    epubDateText := none, citedByText := none, epubDoiHref := none,
    refItems := none }

/-- Article-typed fragment whose only italic element is whitespace-only but
which carries both hidden-span and hyperlink DOI candidates. -/
def exC10 : RefElem :=
  { authorTexts := ["Smith, Jo"], pubYearText := some "2001",
    fullText := "Smith, Jo, 2001, Title text",
    hasItalic := true, italicTexts := ["  "],
    articleTitleText := some "Title text", bookTitleText := none,
    chapterTitleText := none, otherTitleText := none,
    hiddenDoiTexts := some ["10.1111/jofi.12737"],
    doiHref := some "https://doi.org/10.2307/1912934" }

/-! Now the lemmas and theorems. -/

theorem noWsRun_cons (a : Char) (t : List Char) :
    noWsRun (a :: t)
      = ((match t.head? with
          | none => true
          | some b => !(isPySpace a && isPySpace b)) && noWsRun t) := by
  cases t <;> simp [noWsRun]

theorem noWsRun_tail {a : Char} {t : List Char}
    (h : noWsRun (a :: t) = true) : noWsRun t = true := by
  rw [noWsRun_cons] at h
  exact (Bool.and_eq_true_iff.mp h).2

theorem noWsRun_append_left {l m : List Char}
    (h : noWsRun (l ++ m) = true) : noWsRun l = true := by
  induction l with
  | nil => rfl
  | cons a t ih =>
    rw [List.cons_append, noWsRun_cons] at h
    obtain ⟨h1, h2⟩ := Bool.and_eq_true_iff.mp h
    rw [noWsRun_cons]
    refine Bool.and_eq_true_iff.mpr ⟨?_, ih h2⟩
    cases ht : t.head? with
    | none =>
      simp
    | some b =>
      have : (t ++ m).head? = some b := by
        cases t with
        | nil => simp at ht
        | cons x xs => simpa using ht
      simpa [this] using h1

theorem noWsRun_dropWhile {l : List Char} (p : Char → Bool)
    (h : noWsRun l = true) : noWsRun (l.dropWhile p) = true := by
  induction l with
  | nil => simpa using h
  | cons a t ih =>
    by_cases hp : p a = true
    · rw [List.dropWhile_cons, if_pos hp]
      exact ih (noWsRun_tail h)
    · rw [List.dropWhile_cons, if_neg hp]
      exact h

theorem noWsRun_rdropWhile {l : List Char} (p : Char → Bool)
    (h : noWsRun l = true) : noWsRun (l.rdropWhile p) = true := by
  obtain ⟨m, hm⟩ := List.rdropWhile_prefix p l
  rw [← hm] at h
  exact noWsRun_append_left h

theorem wsOnlyBlank_append_left {l m : List Char}
    (h : wsOnlyBlank (l ++ m) = true) : wsOnlyBlank l = true := by
  simp only [wsOnlyBlank, List.all_append, Bool.and_eq_true] at h
  exact h.1

theorem wsOnlyBlank_dropWhile {l : List Char} (p : Char → Bool)
    (h : wsOnlyBlank l = true) : wsOnlyBlank (l.dropWhile p) = true := by
  obtain ⟨m, hm⟩ := List.dropWhile_suffix (l := l) p
  simp only [wsOnlyBlank, List.all_eq_true] at h ⊢
  intro c hc
  exact h c (by rw [← hm]; exact List.mem_append_right m hc)

theorem wsOnlyBlank_rdropWhile {l : List Char} (p : Char → Bool)
    (h : wsOnlyBlank l = true) : wsOnlyBlank (l.rdropWhile p) = true := by
  obtain ⟨m, hm⟩ := List.rdropWhile_prefix p l
  rw [← hm] at h
  exact wsOnlyBlank_append_left h

theorem head_dropWhile_not {l : List Char} {p : Char → Bool} {c : Char}
    (h : (l.dropWhile p).head? = some c) : p c = false := by
  induction l with
  | nil => simp [List.dropWhile] at h
  | cons a t ih =>
    rw [List.dropWhile_cons] at h
    by_cases hp : p a = true
    · rw [if_pos hp] at h; exact ih h
    · rw [if_neg hp] at h
      simp only [List.head?_cons, Option.some.injEq] at h
      subst h
      simpa using hp

theorem getLast?_rdropWhile_not {l : List Char} {p : Char → Bool} {c : Char}
    (h : (l.rdropWhile p).getLast? = some c) : p c = false := by
  have hne : l.rdropWhile p ≠ [] := by
    intro hnil; rw [hnil] at h; simp at h
  have hlast := List.rdropWhile_last_not p l hne
  rw [List.getLast?_eq_getLast _ hne] at h
  have : (l.rdropWhile p).getLast hne = c := by injection h
  rw [this] at hlast
  simpa using hlast

theorem dropWhile_eq_self_of_head {l : List Char} {p : Char → Bool}
    (h : ∀ c, l.head? = some c → p c = false) : l.dropWhile p = l := by
  cases l with
  | nil => rfl
  | cons a t =>
    have := h a (by rfl)
    rw [List.dropWhile_cons, if_neg (by simp [this])]

theorem rdropWhile_eq_self_of_getLast {l : List Char} {p : Char → Bool}
    (h : ∀ c, l.getLast? = some c → p c = false) : l.rdropWhile p = l := by
  rw [List.rdropWhile_eq_self_iff]
  intro hl
  have := h (l.getLast hl) (List.getLast?_eq_getLast l hl)
  simp [this]

theorem getLast?_dropWhile_of_ne_nil {l : List Char} {p : Char → Bool}
    (h : l.dropWhile p ≠ []) : (l.dropWhile p).getLast? = l.getLast? := by
  obtain ⟨m, hm⟩ := List.dropWhile_suffix (l := l) p
  conv_rhs => rw [← hm]
  exact (List.getLast?_append_of_ne_nil m h).symm

theorem head?_rdropWhile_of_ne_nil {l : List Char} {p : Char → Bool}
    (h : l.rdropWhile p ≠ []) : (l.rdropWhile p).head? = l.head? := by
  obtain ⟨m, hm⟩ := List.rdropWhile_prefix p l
  conv_rhs => rw [← hm]
  cases hrd : l.rdropWhile p with
  | nil => exact absurd hrd h
  | cons a t => simp

theorem collapseWsAux_true_head {t : List Char} {c : Char}
    (h : (collapseWsAux true t).head? = some c) : isPySpace c = false := by
  induction t with
  | nil => simp [collapseWsAux] at h
  | cons a t ih =>
    rw [collapseWsAux] at h
    by_cases ha : isPySpace a = true
    · rw [if_pos ha, if_pos rfl] at h
      exact ih h
    · rw [if_neg ha] at h
      simp only [List.head?_cons, Option.some.injEq] at h
      subst h
      simpa using ha

theorem noWsRun_collapseWsAux (t : List Char) :
    ∀ b, noWsRun (collapseWsAux b t) = true := by
  induction t with
  | nil => intro b; rfl
  | cons a t ih =>
    intro b
    rw [collapseWsAux]
    by_cases ha : isPySpace a = true
    · rw [if_pos ha]
      cases b with
      | true => exact ih true
      | false =>
        simp only [Bool.false_eq_true, if_false, noWsRun_cons]
        refine Bool.and_eq_true_iff.mpr ⟨?_, ih true⟩
        cases hh : (collapseWsAux true t).head? with
        | none => simp
        | some c => simp [collapseWsAux_true_head hh]
    · rw [if_neg ha]
      rw [noWsRun_cons]
      refine Bool.and_eq_true_iff.mpr ⟨?_, ih false⟩
      cases hh : (collapseWsAux false t).head? with
      | none => simp
      | some c => simp [ha]

theorem noWsRun_collapseWs (l : List Char) : noWsRun (collapseWs l) = true :=
  noWsRun_collapseWsAux l false

theorem wsOnlyBlank_collapseWsAux (t : List Char) :
    ∀ b, wsOnlyBlank (collapseWsAux b t) = true := by
  induction t with
  | nil => intro b; rfl
  | cons a t ih =>
    intro b
    rw [collapseWsAux]
    by_cases ha : isPySpace a = true
    · rw [if_pos ha]
      cases b with
      | true => exact ih true
      | false =>
        simp only [Bool.false_eq_true, if_false, wsOnlyBlank, List.all_cons,
          Bool.and_eq_true]
        exact ⟨by simp, ih true⟩
    · rw [if_neg ha]
      simp only [wsOnlyBlank, List.all_cons, Bool.and_eq_true]
      exact ⟨by simp [ha], ih false⟩

theorem wsOnlyBlank_collapseWs (l : List Char) :
    wsOnlyBlank (collapseWs l) = true :=
  wsOnlyBlank_collapseWsAux l false

theorem collapseWsAux_true_eq_false {t : List Char}
    (h : ∀ c, t.head? = some c → isPySpace c = false) :
    collapseWsAux true t = collapseWsAux false t := by
  cases t with
  | nil => rfl
  | cons a s =>
    have := h a rfl
    rw [collapseWsAux, collapseWsAux, if_neg (by simp [this]),
      if_neg (by simp [this])]

theorem collapseWs_eq_self {l : List Char}
    (h1 : noWsRun l = true) (h2 : wsOnlyBlank l = true) : collapseWs l = l := by
  rw [collapseWs]
  induction l with
  | nil => rfl
  | cons a t ih =>
    have h1t : noWsRun t = true := noWsRun_tail h1
    have h2t : wsOnlyBlank t = true := by
      simp only [wsOnlyBlank, List.all_cons, Bool.and_eq_true] at h2
      exact h2.2
    rw [collapseWsAux]
    by_cases ha : isPySpace a = true
    · have haeq : a = ' ' := by
        simp only [wsOnlyBlank, List.all_cons, Bool.and_eq_true] at h2
        have := h2.1
        rw [ha] at this
        simpa using this
      rw [if_pos ha]
      simp only [Bool.false_eq_true, if_false]
      have hhd : ∀ c, t.head? = some c → isPySpace c = false := by
        intro c hc
        rw [noWsRun_cons, hc] at h1
        obtain ⟨hx, _⟩ := Bool.and_eq_true_iff.mp h1
        rw [ha] at hx
        simpa using hx
      rw [collapseWsAux_true_eq_false hhd, ih h1t h2t, haeq]
    · rw [if_neg ha, ih h1t h2t]

theorem isPySpace_false_of_isPunctSpace_false {c : Char}
    (h : isPunctSpace c = false) : isPySpace c = false := by
  simp only [isPunctSpace, Bool.or_eq_false_iff] at h
  exact h.2

/-- The structural facts about the output of `clean_text`: no adjacent whitespace,
all whitespace is the plain space, and neither end is in the stripped class. -/
theorem clean_text_shape (s : String) :
    noWsRun (clean_text s).data = true ∧
    wsOnlyBlank (clean_text s).data = true ∧
    (∀ c, (clean_text s).data.head? = some c → isPunctSpace c = false) ∧
    (∀ c, (clean_text s).data.getLast? = some c → isPunctSpace c = false) := by
  by_cases hs : s = ""
  · simp [clean_text, hs, noWsRun, wsOnlyBlank]
  · rw [clean_text, if_neg hs]
    set l1 := collapseWs s.data with hl1
    set l2 := l1.rdropWhile isPunctSpace with hl2
    set l3 := l2.dropWhile isPunctSpace with hl3
    have h1 : noWsRun l3 = true :=
      noWsRun_dropWhile _ (noWsRun_rdropWhile _ (noWsRun_collapseWs s.data))
    have h2 : wsOnlyBlank l3 = true :=
      wsOnlyBlank_dropWhile _
        (wsOnlyBlank_rdropWhile _ (wsOnlyBlank_collapseWs s.data))
    have hhead : ∀ c, l3.head? = some c → isPunctSpace c = false := by
      intro c hc
      exact head_dropWhile_not hc
    have hlast : ∀ c, l3.getLast? = some c → isPunctSpace c = false := by
      intro c hc
      have hne : l3 ≠ [] := by
        intro hnil; rw [hnil] at hc; simp at hc
      rw [hl3, getLast?_dropWhile_of_ne_nil (hl3 ▸ hne)] at hc
      exact getLast?_rdropWhile_not hc
    have hstrip : pyStripList l3 = l3 := by
      rw [pyStripList]
      rw [dropWhile_eq_self_of_head (fun c hc =>
        isPySpace_false_of_isPunctSpace_false (hhead c hc))]
      exact rdropWhile_eq_self_of_getLast (fun c hc =>
        isPySpace_false_of_isPunctSpace_false (hlast c hc))
    refine ⟨?_, ?_, ?_, ?_⟩ <;> simp only [hstrip]
    · exact h1
    · exact h2
    · exact hhead
    · exact hlast

theorem clean_text_fixed {r : String} (h1 : noWsRun r.data = true)
    (h2 : wsOnlyBlank r.data = true)
    (h3 : ∀ c, r.data.head? = some c → isPunctSpace c = false)
    (h4 : ∀ c, r.data.getLast? = some c → isPunctSpace c = false) :
    clean_text r = r := by
  by_cases hr : r = ""
  · rw [hr]; rfl
  · rw [clean_text, if_neg hr]
    rw [collapseWs_eq_self h1 h2]
    rw [rdropWhile_eq_self_of_getLast h4]
    rw [dropWhile_eq_self_of_head h3]
    rw [pyStripList]
    rw [dropWhile_eq_self_of_head (fun c hc =>
      isPySpace_false_of_isPunctSpace_false (h3 c hc))]
    rw [rdropWhile_eq_self_of_getLast (fun c hc =>
      isPySpace_false_of_isPunctSpace_false (h4 c hc))]

/-! Lemmas on the shape of the result of `parse_reference`. -/

theorem parse_reference_ref_type (e : RefElem) :
    (parse_reference e).ref_type = (secondPass e).2.1 := by
  rw [parse_reference]
  rcases hsp : secondPass e with ⟨t, rt, inst⟩
  simp only []
  split
  · cases hj : journalOf e with
    | none => rfl
    | some j =>
      rcases hvp : volAndPages e.fullText j with ⟨v, pf, pl⟩
      rfl
  · rfl

theorem parse_reference_authors (e : RefElem) :
    (parse_reference e).authors = refAuthors e.authorTexts := by
  rw [parse_reference]
  rcases hsp : secondPass e with ⟨t, rt, inst⟩
  simp only []
  split
  · cases hj : journalOf e with
    | none => rfl
    | some j =>
      rcases hvp : volAndPages e.fullText j with ⟨v, pf, pl⟩
      rfl
  · rfl

theorem parse_reference_year (e : RefElem) :
    (parse_reference e).year = e.pubYearText.map extract_year := by
  rw [parse_reference]
  rcases hsp : secondPass e with ⟨t, rt, inst⟩
  simp only []
  split
  · cases hj : journalOf e with
    | none => rfl
    | some j =>
      rcases hvp : volAndPages e.fullText j with ⟨v, pf, pl⟩
      rfl
  · rfl

theorem parse_reference_doi_cases (e : RefElem) :
    (parse_reference e).doi = none ∨ (parse_reference e).doi = doiOf e := by
  rw [parse_reference]
  rcases hsp : secondPass e with ⟨t, rt, inst⟩
  simp only []
  split
  · cases hj : journalOf e with
    | none => exact Or.inl rfl
    | some j =>
      rcases hvp : volAndPages e.fullText j with ⟨v, pf, pl⟩
      exact Or.inr rfl
  · exact Or.inr rfl

theorem secondPass_ref_type_of_wp (e : RefElem)
    (h : containsWorkingPaper e.fullText = true) :
    (secondPass e).2.1 = ReferenceType.working_paper := by
  have hrt : refType1 e = .working_paper := by
    rw [refType1, if_pos h]
  rw [secondPass]
  split
  · simpa using hrt
  · cases e.otherTitleText with
    | none => simpa using hrt
    | some t =>
      simp only []
      split
      · rfl
      · simpa using hrt

theorem journalOf_none_of_ws_italics (e : RefElem)
    (h : ∀ t ∈ e.italicTexts, pyStrip t = "") : journalOf e = none := by
  rw [journalOf]
  split
  · rw [joinItalics]
    have hf : e.italicTexts.filter (fun t => pyStrip t ≠ "") = [] := by
      rw [List.filter_eq_nil_iff]
      intro t ht
      simp [h t ht]
    rw [hf]
    rfl
  · rfl

theorem parse_reference_doi_none_of_article_no_journal (e : RefElem)
    (hrt : (secondPass e).2.1 = ReferenceType.article)
    (hj : journalOf e = none) : (parse_reference e).doi = none := by
  rw [parse_reference]
  rcases hsp : secondPass e with ⟨t, rt, inst⟩
  simp only []
  rw [hsp] at hrt
  simp only [] at hrt
  rw [if_pos hrt, hj]

/-! Lemmas showing extracted page bounds are digit runs (for the
forthcoming-sentinel claim). -/

theorem takeWhile_head {p : Char → Bool} {l : List Char} {c : Char}
    {cs : List Char} (h : l.takeWhile p = c :: cs) : p c = true := by
  induction l with
  | nil => simp at h
  | cons a t ih =>
    rw [List.takeWhile_cons] at h
    by_cases hp : p a = true
    · rw [if_pos hp] at h
      have : a = c := by injection h
      exact this ▸ hp
    · rw [if_neg hp] at h
      simp at h

theorem scanOpt_some {α : Type} {p : List Char → Option α} {l : List Char}
    {r : α} (h : scanOpt p l = some r) : ∃ m, p m = some r := by
  induction l with
  | nil => exact ⟨[], h⟩
  | cons c cs ih =>
    rw [scanOpt] at h
    cases hp : p (c :: cs) with
    | some x =>
      rw [hp] at h
      exact ⟨c :: cs, hp ▸ h⟩
    | none =>
      rw [hp] at h
      exact ih h

theorem pagePairAt_digit_heads {l a b : List Char}
    (h : pagePairAt l = some (a, b)) :
    (∃ c cs, a = c :: cs ∧ c.isDigit = true) ∧
    (∃ c cs, b = c :: cs ∧ c.isDigit = true) := by
  rw [pagePairAt] at h
  cases htw : l.takeWhile Char.isDigit with
  | nil => rw [htw] at h; simp at h
  | cons d ds =>
    rw [htw] at h
    simp only [] at h
    cases hdw : ((l.drop (d :: ds).length).dropWhile isPySpace) with
    | nil => rw [hdw] at h; simp at h
    | cons x r3 =>
      rw [hdw] at h
      simp only [] at h
      by_cases hx : (x == '-' || x == '–') = true
      · rw [if_pos hx] at h
        cases htw2 : (r3.dropWhile isPySpace).takeWhile Char.isDigit with
        | nil => rw [htw2] at h; simp at h
        | cons e es =>
          rw [htw2] at h
          simp only [Option.some.injEq, Prod.mk.injEq] at h
          refine ⟨⟨d, ds, h.1.symm, takeWhile_head htw⟩,
            ⟨e, es, h.2.symm, takeWhile_head htw2⟩⟩
      · rw [if_neg hx] at h
        simp at h

theorem forthcoming_head : "forthcoming".data.head? = some 'f' := rfl

theorem pagesOf_ne_forthcoming (l : List Char) :
    (pagesOf l).1 ≠ some "forthcoming" ∧ (pagesOf l).2 ≠ some "forthcoming" := by
  rw [pagesOf]
  cases hs : scanOpt pagePairAt l with
  | none => simp
  | some ab =>
    rcases ab with ⟨a, b⟩
    obtain ⟨m, hm⟩ := scanOpt_some hs
    obtain ⟨⟨c, cs, hac, hcd⟩, ⟨c2, cs2, hbc, hcd2⟩⟩ := pagePairAt_digit_heads hm
    constructor
    · intro hcon
      simp only [Option.some.injEq] at hcon
      have := congrArg String.data hcon
      simp only [] at this
      rw [hac] at this
      have hc : c = 'f' := by
        have := congrArg List.head? this
        simp [forthcoming_head] at this
        exact this
      rw [hc] at hcd
      simp at hcd
    · intro hcon
      simp only [Option.some.injEq] at hcon
      have := congrArg String.data hcon
      simp only [] at this
      rw [hbc] at this
      have hc : c2 = 'f' := by
        have := congrArg List.head? this
        simp [forthcoming_head] at this
        exact this
      rw [hc] at hcd2
      simp at hcd2

theorem volAndPages_ne_forthcoming (ft j : String) :
    (volAndPages ft j).2.1 ≠ some "forthcoming" ∧
    (volAndPages ft j).2.2 ≠ some "forthcoming" := by
  rw [volAndPages]
  cases hf : findSubAux j.data ft.data 0 with
  | none => simp
  | some idx =>
    simp only []
    cases h1 : scanOpt volPat1At
        (pyStripList (ft.data.drop (idx + j.data.length))) with
    | some vr =>
      rcases vr with ⟨v, rest⟩
      exact pagesOf_ne_forthcoming rest
    | none =>
      simp only []
      cases h2 : scanOpt volPat2At
          (pyStripList (ft.data.drop (idx + j.data.length))) with
      | some vr =>
        rcases vr with ⟨v, rest⟩
        exact pagesOf_ne_forthcoming rest
      | none => exact pagesOf_ne_forthcoming _

theorem parse_reference_pages_ne_forthcoming (e : RefElem) :
    (parse_reference e).page_first ≠ some "forthcoming" ∧
    (parse_reference e).page_last ≠ some "forthcoming" := by
  rw [parse_reference]
  rcases hsp : secondPass e with ⟨t, rt, inst⟩
  simp only []
  split
  · cases hj : journalOf e with
    | none => simp
    | some j =>
      simpa using volAndPages_ne_forthcoming e.fullText j
  · simp

/-! Lemmas on the de-duplicating author loop. -/

theorem authorsOf_foldl_aux (elems : List AuthorElem) :
    ∀ acc : List String,
      elems.foldl
        (fun acc a =>
          if extractName a ≠ "" then
            if clean_text (extractName a) ∈ acc then acc
            else acc ++ [clean_text (extractName a)]
          else acc) acc =
      ((((elems.map extractName).filter (fun n => n ≠ "")).map
        clean_text).foldl dedupStep acc) := by
  induction elems with
  | nil => intro acc; rfl
  | cons a es ih =>
    intro acc
    rw [List.foldl_cons]
    by_cases ha : extractName a = ""
    · rw [if_neg (fun h => h ha)]
      have hf : ((a :: es).map extractName).filter (fun n => n ≠ "") =
          (es.map extractName).filter (fun n => n ≠ "") := by
        simp [ha]
      rw [hf]
      exact ih acc
    · rw [if_pos ha]
      have hf : ((a :: es).map extractName).filter (fun n => n ≠ "") =
          extractName a :: (es.map extractName).filter (fun n => n ≠ "") := by
        simp [ha]
      rw [hf, List.map_cons, List.foldl_cons]
      exact ih (dedupStep acc (clean_text (extractName a)))

theorem authorsOf_eq_foldl (elems : List AuthorElem) :
    authorsOf elems =
      ((((elems.map extractName).filter (fun n => n ≠ "")).map
        clean_text).foldl dedupStep []) := by
  rw [authorsOf]
  exact authorsOf_foldl_aux elems []

theorem nodup_append_singleton {x : String} {acc : List String}
    (h1 : acc.Nodup) (h2 : x ∉ acc) : (acc ++ [x]).Nodup := by
  simp [List.nodup_append, h1, h2]

theorem foldl_dedupStep_nodup (l : List String) :
    ∀ acc : List String, acc.Nodup → (l.foldl dedupStep acc).Nodup := by
  induction l with
  | nil => intro acc h; exact h
  | cons n es ih =>
    intro acc h
    rw [List.foldl_cons]
    apply ih
    rw [dedupStep]
    by_cases hn : n ∈ acc
    · rw [if_pos hn]; exact h
    · rw [if_neg hn]; exact nodup_append_singleton h hn

theorem foldl_dedupStep_mem (l : List String) :
    ∀ (acc : List String) (x : String),
      x ∈ l.foldl dedupStep acc ↔ x ∈ acc ∨ x ∈ l := by
  induction l with
  | nil => intro acc x; simp
  | cons n es ih =>
    intro acc x
    rw [List.foldl_cons, ih]
    have hg : x ∈ dedupStep acc n ↔ x ∈ acc ∨ x = n := by
      rw [dedupStep]
      by_cases hn : n ∈ acc
      · rw [if_pos hn]
        constructor
        · exact Or.inl
        · rintro (h | rfl)
          · exact h
          · exact hn
      · rw [if_neg hn]
        simp
    rw [hg]
    simp only [List.mem_cons]
    tauto

theorem foldl_dedupStep_sublist (l : List String) :
    ∀ acc : List String,
      ∃ s, l.foldl dedupStep acc = acc ++ s ∧ s.Sublist l := by
  induction l with
  | nil => intro acc; exact ⟨[], by simp⟩
  | cons n es ih =>
    intro acc
    rw [List.foldl_cons, dedupStep]
    by_cases hn : n ∈ acc
    · rw [if_pos hn]
      obtain ⟨s, hs1, hs2⟩ := ih acc
      exact ⟨s, hs1, hs2.cons n⟩
    · rw [if_neg hn]
      obtain ⟨s, hs1, hs2⟩ := ih (acc ++ [n])
      exact ⟨n :: s, by simpa using hs1, hs2.cons₂ n⟩

/-! The claim theorems. -/

/-- C1: classification priority is top-to-bottom with first match winning:
any fragment whose full text contains a case-insensitive "working paper"
token is typed WORKING_PAPER, even when it also has an italic element
(rule 1 precedes rule 2); in particular the fragment `exC1`, which has an
italic venue tag and the literal text "Working Paper, MIT", is classified
WORKING_PAPER with institution "MIT". -/
theorem claim_C1 :
    (∀ e : RefElem, containsWorkingPaper e.fullText = true →
      (parse_reference e).ref_type = ReferenceType.working_paper) ∧
    ((parse_reference exC1).ref_type = ReferenceType.working_paper ∧
      (parse_reference exC1).working_paper_institution = some "MIT") := by
  refine ⟨fun e h => ?_, by decide, by decide⟩
  rw [parse_reference_ref_type]
  exact secondPass_ref_type_of_wp e h

/-- Witness for C1: the fragment `exC1` satisfies the working-paper-token
hypothesis, and the universal part of the theorem applies to it. -/
theorem claim_C1_witness :
    containsWorkingPaper exC1.fullText = true ∧
    (parse_reference exC1).ref_type = ReferenceType.working_paper :=
  ⟨by decide, claim_C1.1 exC1 (by decide)⟩

/-- C2 counterexample: the malformed candidate `10.12/x` (too few registrant
digits for the canonical shape) found in the hidden DOI span is NOT rejected:
the doi field of the returned reference holds it verbatim, refuting the claim
that such candidates resolve to absent. -/
theorem claim_C2_counterexample :
    isCanonicalDoi "10.12/x" = false ∧
    (parse_reference exC2short).doi = some "10.12/x" := by
  exact ⟨by decide, by decide⟩

/-- C2 as amended: `parse_reference` applies no shape validation to DOI
candidates — its doi is either absent or exactly the raw candidate
(hidden-span first string starting with `10.`, else the address of the `doi.org` link
with the resolver prefix stripped).  `10.1111/jofi.12737` is indeed
accepted verbatim, and `not-a-doi` on the hidden-span path resolves to
absent (it lacks the `10.` prefix), but `not-a-doi` via a link, `10.12/x`,
and whitespace-containing candidates are accepted rather than rejected. -/
theorem claim_C2 :
    (∀ e : RefElem,
      (parse_reference e).doi = none ∨ (parse_reference e).doi = doiOf e) ∧
    (parse_reference exC2good).doi = some "10.1111/jofi.12737" ∧
    isCanonicalDoi "10.1111/jofi.12737" = true ∧
    (parse_reference exC2bad).doi = none ∧
    (parse_reference exC2href).doi = some "not-a-doi" ∧
    (parse_reference exC2ws).doi = some "10.1111/jo fi.1" ∧
    isCanonicalDoi "10.1111/jo fi.1" = false :=
  ⟨parse_reference_doi_cases, by decide, by decide, by decide, by decide,
    by decide, by decide⟩

/-- C3: every reference in the output of `parse_wiley_html` has a non-empty
authors list — entries with zero surviving authors are discarded by the
caller. -/
theorem claim_C3 (input : Option Doc) (r : Reference)
    (h : r ∈ (parse_wiley_html input).references) : r.authors ≠ [] := by
  cases input with
  | none => simp [parse_wiley_html, emptyMetadata] at h
  | some d =>
    rw [parse_wiley_html] at h
    simp only [] at h
    cases hri : d.refItems with
    | none => rw [hri] at h; simp at h
    | some items =>
      rw [hri] at h
      simp only [] at h
      have := List.of_mem_filter h
      simpa using this

/-- Witness for C3: the single-reference document `exC3doc` yields a
reference, and the theorem applies to it. -/
theorem claim_C3_witness : (parse_reference exC3).authors ≠ [] :=
  claim_C3 (some exC3doc) (parse_reference exC3) (by decide)

/-- C4: `parse_wiley_html` never raises past its boundary — it is a total
function into `ArticleMetadata` — and on a document-level failure (modelled
by the `none` input) it returns the record with every field absent/empty. -/
theorem claim_C4 :
    parse_wiley_html none =
      { title := none, authors := [], published_date := none, volume := none,
        issue := none, page_first := none, page_last := none,
        citations := none, doi := none, references := [] } := rfl

/-- C5 counterexample: for the fragment `exC5` whose italic journal field
reads "Journal of Finance, forthcoming", the classifier keeps the token in
the journal string and leaves both page bounds absent — there is no
forthcoming handling, refuting the claimed stripping and sentinel pages. -/
theorem claim_C5_counterexample :
    (parse_reference exC5).journal = some "Journal of Finance, forthcoming" ∧
    (parse_reference exC5).page_first = none ∧
    (parse_reference exC5).page_last = none := by
  exact ⟨by decide, by decide, by decide⟩

/-- C5 as amended: the classifier has no forthcoming handling: page bounds
are never the sentinel string "forthcoming" (they are digit runs or absent),
and a journal field containing "forthcoming" keeps the token verbatim after
cleaning. -/
theorem claim_C5 :
    (∀ e : RefElem,
      ((parse_reference e).page_first == some "forthcoming") = false ∧
      ((parse_reference e).page_last == some "forthcoming") = false) ∧
    (parse_reference exC5).journal = some "Journal of Finance, forthcoming" := by
  refine ⟨fun e => ?_, by decide⟩
  obtain ⟨h1, h2⟩ := parse_reference_pages_ne_forthcoming e
  exact ⟨beq_eq_false_iff_ne.mpr h1, beq_eq_false_iff_ne.mpr h2⟩

/-- C6 counterexample: an author element whose raw text `"."` is truthy but
cleans to the empty string produces an empty-string entry in the authors
list, refuting the claim that no entry is the empty string. -/
theorem claim_C6_counterexample :
    (parse_wiley_html (some exC6dot)).authors = [""] ∧
    "" ∈ (parse_wiley_html (some exC6dot)).authors := by
  exact ⟨by decide, by decide⟩

/-- C6 as amended: the authors list is de-duplicated by cleaned value in
first-seen order — it has no duplicates, is a subsequence of the cleaned
names of the non-empty raw author names in document order, and contains
exactly those cleaned names — but an entry may be the empty string when a
non-empty raw name cleans to empty.  Two elements cleaning to "Jane Doe"
in `exC6dup` yield one entry, at the first position. -/
theorem claim_C6 :
    (∀ d : Doc,
      ((parse_wiley_html (some d)).authors).Nodup ∧
      ((parse_wiley_html (some d)).authors).Sublist (cleanedNames d) ∧
      (∀ n, n ∈ cleanedNames d ↔ n ∈ (parse_wiley_html (some d)).authors)) ∧
    (parse_wiley_html (some exC6dup)).authors = ["Jane Doe", "Bob Smith"] := by
  constructor
  · intro d
    have hauth : (parse_wiley_html (some d)).authors =
        (cleanedNames d).foldl dedupStep [] := by
      have : (parse_wiley_html (some d)).authors =
          authorsOf (usedAuthorElems d) := rfl
      rw [this, authorsOf_eq_foldl]
      rfl
    refine ⟨?_, ?_, ?_⟩
    · rw [hauth]
      exact foldl_dedupStep_nodup _ [] (by simp)
    · rw [hauth]
      obtain ⟨s, hs1, hs2⟩ := foldl_dedupStep_sublist (cleanedNames d) []
      rw [hs1]
      simpa using hs2
    · intro n
      rw [hauth, foldl_dedupStep_mem]
      simp
  · decide

/-- C7: `clean_text` is idempotent. -/
theorem claim_C7 (s : String) : clean_text (clean_text s) = clean_text s := by
  obtain ⟨h1, h2, h3, h4⟩ := clean_text_shape s
  exact clean_text_fixed h1 h2 h3 h4

/-- C8: the output of `clean_text` contains no run of two or more consecutive
whitespace characters, and neither its first nor its last character is
whitespace or one of the punctuation characters `[.,;:]` that the transform
strips from the ends. -/
theorem claim_C8 (s : String) :
    noWsRun (clean_text s).data = true ∧
    (∀ c, (clean_text s).data.head? = some c → isPunctSpace c = false) ∧
    (∀ c, (clean_text s).data.getLast? = some c → isPunctSpace c = false) := by
  obtain ⟨h1, _, h3, h4⟩ := clean_text_shape s
  exact ⟨h1, h3, h4⟩

/-- Witness for C8 at a concrete input whose cleaned form is `"x . y"`. -/
theorem claim_C8_witness :
    noWsRun (clean_text " x  .  y ., ").data = true ∧
    isPunctSpace 'x' = false ∧ isPunctSpace 'y' = false :=
  ⟨(claim_C8 " x  .  y ., ").1,
    (claim_C8 " x  .  y ., ").2.1 'x' (by decide),
    (claim_C8 " x  .  y ., ").2.2 'y' (by decide)⟩

/-- C9: `clean_volume` does not return the first digit run — its pattern
`\d+` has no capture group, so `match.group(1)` raises
`IndexError: no such group` on any text containing a digit (while the
parallel `clean_pages`, which uses `group(0)`, returns the run); only
digit-free and falsy inputs return the empty string. -/
theorem claim_C9 :
    clean_volume "Volume 12, p. 30-41" = Except.error "no such group" ∧
    clean_volume "no digits" = Except.ok "" ∧
    clean_pages "Volume 12, p. 30-41" = "12" := by
  exact ⟨rfl, rfl, by decide⟩

/-- C10: for a fragment classified ARTICLE whose italic elements are all
whitespace-only (so the journal stays `None`), the call
`full_text.find(None)` of the volume/page scan raises `TypeError`, the reference-level handler
swallows it, and DOI extraction is never reached: the doi is absent even
when DOI candidates are present, while authors, year and ref_type keep the
values accumulated before the failure. -/
theorem claim_C10 (e : RefElem)
    (_h1 : e.hasItalic = true)
    (h2 : ∀ t ∈ e.italicTexts, pyStrip t = "")
    (h3 : (secondPass e).2.1 = ReferenceType.article) :
    (parse_reference e).doi = none ∧
    (parse_reference e).ref_type = ReferenceType.article ∧
    (parse_reference e).authors = refAuthors e.authorTexts ∧
    (parse_reference e).year = e.pubYearText.map extract_year := by
  have hj : journalOf e = none := journalOf_none_of_ws_italics e h2
  refine ⟨parse_reference_doi_none_of_article_no_journal e h3 hj, ?_,
    parse_reference_authors e, parse_reference_year e⟩
  rw [parse_reference_ref_type]
  exact h3

/-- Witness for C10: the fragment `exC10` has a whitespace-only italic
element and carries both a hidden-span and a hyperlink DOI candidate, yet
its doi is absent. -/
theorem claim_C10_witness :
    (parse_reference exC10).doi = none ∧
    (parse_reference exC10).ref_type = ReferenceType.article :=
  ⟨(claim_C10 exC10 (by decide) (by decide) (by decide)).1,
    (claim_C10 exC10 (by decide) (by decide) (by decide)).2.1⟩

end WileyParser
